import Mathlib

/-!
Verification development for the SECScrape outlier-analysis scripts.

The two analysis programs embedded here are `ev_outlier.py` (single-metric
MCap/EV outlier detection) and `ev_var_outlier.py` (dual-metric MCap/EV +
VaR outlier detection).  Instruments are CSV rows; ratio values are modelled
as rationals (pandas floats are IEEE doubles, but every computation in the
source is exact field arithmetic and order comparison, which ℚ reflects
faithfully); a missing value (NaN after numeric coercion) is modelled as
`CsvVal.missing`, and the literal `-inf` sentinel that `ev_outlier.py`
filters out is `CsvVal.negInf`.
-/

/-! ## Generic list and string helpers -/

/-- Insert `x` into `l` in front of the first element `y` with `le x y`. -/
def insertLe {α : Type} (le : α → α → Bool) (x : α) : List α → List α
  | [] => [x]
  | y :: ys => if le x y then x :: y :: ys else y :: insertLe le x ys

/-- Insertion sort by a boolean comparison.  The source sorts with
`pandas.sort_values` / `sorted`; any sort agrees with it up to reordering of
ties, and every property proved below depends only on sortedness and on the
underlying multiset. -/
def insSortOn {α : Type} (le : α → α → Bool) : List α → List α
  | [] => []
  | x :: xs => insertLe le x (insSortOn le xs)

theorem insertLe_perm {α : Type} (le : α → α → Bool) (x : α) (l : List α) :
    List.Perm (insertLe le x l) (x :: l) := by
  induction l with
  | nil => simp [insertLe]
  | cons y ys ih =>
    simp only [insertLe]
    by_cases h : le x y
    · simp [h]
    · simp only [h, if_false]
      exact List.Perm.trans (List.Perm.cons y ih) (List.Perm.swap x y ys)

theorem insSortOn_perm {α : Type} (le : α → α → Bool) (l : List α) :
    List.Perm (insSortOn le l) l := by
  induction l with
  | nil => simp [insSortOn]
  | cons x xs ih =>
    exact List.Perm.trans (insertLe_perm le x (insSortOn le xs)) (List.Perm.cons x ih)

theorem mem_insSortOn {α : Type} {le : α → α → Bool} {x : α} {l : List α} :
    x ∈ insSortOn le l ↔ x ∈ l :=
  (insSortOn_perm le l).mem_iff

theorem insertLe_pairwise {α : Type} (le : α → α → Bool)
    (trans : ∀ a b c, le a b = true → le b c = true → le a c = true)
    (total : ∀ a b, le a b = true ∨ le b a = true) (x : α) (l : List α)
    (hl : l.Pairwise (fun a b => le a b = true)) :
    (insertLe le x l).Pairwise (fun a b => le a b = true) := by
  induction l with
  | nil => simp [insertLe]
  | cons y ys ih =>
    rcases List.pairwise_cons.mp hl with ⟨hy, hys⟩
    simp only [insertLe]
    by_cases h : le x y = true
    · simp only [h, if_true]
      refine List.pairwise_cons.mpr ⟨?_, hl⟩
      intro b hb
      rcases List.mem_cons.mp hb with rfl | hb
      · exact h
      · exact trans x y b h (hy b hb)
    · simp only [h, if_false]
      refine List.pairwise_cons.mpr ⟨?_, ih hys⟩
      intro b hb
      rcases List.mem_cons.mp ((insertLe_perm le x ys).mem_iff.mp hb) with hbx | hb
      · rw [hbx]
        rcases total x y with hxy | hyx
        · exact absurd hxy h
        · exact hyx
      · exact hy b hb

theorem insSortOn_pairwise {α : Type} (le : α → α → Bool)
    (trans : ∀ a b c, le a b = true → le b c = true → le a c = true)
    (total : ∀ a b, le a b = true ∨ le b a = true) (l : List α) :
    (insSortOn le l).Pairwise (fun a b => le a b = true) := by
  induction l with
  | nil => simp [insSortOn]
  | cons x xs ih => exact insertLe_pairwise le trans total x (insSortOn le xs) ih

/-- Keep the first occurrence of each key, dropping later rows with the same
key: the behaviour of `pandas.drop_duplicates(subset=[key], keep='first')`,
and of `Series.unique` when the key is the element itself. -/
def dedupBy {α κ : Type} [DecidableEq κ] (key : α → κ) : List α → List α
  | [] => []
  | x :: xs => x :: dedupBy key (xs.filter (fun y => key y ≠ key x))
termination_by l => l.length
decreasing_by
  simp only [List.length_cons]
  exact Nat.lt_succ_of_le (List.length_filter_le _ _)

theorem dedupBy_subset {α κ : Type} [DecidableEq κ] (key : α → κ) :
    ∀ (l : List α) (x : α), x ∈ dedupBy key l → x ∈ l
  | [], x, h => by simp [dedupBy] at h
  | a :: xs, x, h => by
    rw [dedupBy] at h
    rcases List.mem_cons.mp h with rfl | h
    · exact List.mem_cons_self _ _
    · exact List.mem_cons_of_mem _
        (List.mem_of_mem_filter (dedupBy_subset key _ x h))
termination_by l => l.length
decreasing_by
  simp only [List.length_cons]
  exact Nat.lt_succ_of_le (List.length_filter_le _ _)

theorem find?_filter_of_imp {α : Type} (p q : α → Bool)
    (himp : ∀ y, q y = true → p y = true) :
    ∀ l : List α, List.find? q (List.filter p l) = List.find? q l := by
  intro l
  induction l with
  | nil => simp
  | cons a xs ih =>
    by_cases hpa : p a = true
    · by_cases hqa : q a = true
      · simp [List.filter_cons, hpa, List.find?_cons, hqa]
      · simp only [List.filter_cons, hpa, if_true, List.find?_cons, hqa]
        simpa [List.find?_cons, hqa] using ih
    · have hqa : q a = false := by
        cases hq : q a
        · rfl
        · exact absurd (himp a hq) hpa
      rw [List.filter_cons, if_neg (by simp [hpa])]
      rw [ih]
      simp [List.find?_cons, hqa]

theorem mem_dedupBy_iff {α κ : Type} [DecidableEq κ] (key : α → κ) :
    ∀ (l : List α) (x : α),
      x ∈ dedupBy key l ↔ List.find? (fun y => decide (key y = key x)) l = some x
  | [], x => by simp [dedupBy]
  | a :: xs, x => by
    rw [dedupBy]
    by_cases hk : key a = key x
    · constructor
      · intro h
        rcases List.mem_cons.mp h with rfl | h
        · simp [List.find?_cons, hk]
        · exfalso
          have hx := dedupBy_subset key _ x h
          have hne := List.of_mem_filter hx
          simp only [decide_not, Bool.not_eq_true', decide_eq_false_iff_not] at hne
          exact hne hk.symm
      · intro h
        simp [List.find?_cons, hk] at h
        exact List.mem_cons.mpr (Or.inl h.symm)
    · have step :
          List.find? (fun y => decide (key y = key x)) (a :: xs) =
            List.find? (fun y => decide (key y = key x)) xs := by
        simp [List.find?_cons, hk]
      rw [step]
      constructor
      · intro h
        rcases List.mem_cons.mp h with rfl | h
        · exact absurd rfl hk
        · have hfind := (mem_dedupBy_iff key _ x).mp h
          rwa [find?_filter_of_imp _ _ ?_] at hfind
          intro y hy
          simp only [decide_eq_true_eq] at hy
          simp only [ne_eq, hy, decide_eq_true_eq]
          exact fun he => hk he.symm
      · intro h
        refine List.mem_cons_of_mem _ ((mem_dedupBy_iff key _ x).mpr ?_)
        rw [find?_filter_of_imp _ _ ?_]
        · exact h
        · intro y hy
          simp only [decide_eq_true_eq] at hy
          simp only [ne_eq, hy, decide_eq_true_eq]
          exact fun he => hk he.symm
termination_by l => l.length
decreasing_by
  all_goals simp only [List.length_cons]
  all_goals exact Nat.lt_succ_of_le (List.length_filter_le _ _)

theorem dedupBy_keys_nodup {α κ : Type} [DecidableEq κ] (key : α → κ) :
    ∀ l : List α, ((dedupBy key l).map key).Nodup
  | [] => by simp [dedupBy]
  | a :: xs => by
    rw [dedupBy]
    simp only [List.map_cons, List.nodup_cons]
    refine ⟨?_, dedupBy_keys_nodup key _⟩
    intro hmem
    rcases List.mem_map.mp hmem with ⟨y, hy, hkey⟩
    have hne := List.of_mem_filter (dedupBy_subset key _ y hy)
    simp only [decide_not, Bool.not_eq_true', decide_eq_false_iff_not] at hne
    exact hne hkey
termination_by l => l.length
decreasing_by
  simp only [List.length_cons]
  exact Nat.lt_succ_of_le (List.length_filter_le _ _)

/-- Does the pattern match at the head of the haystack? -/
def chMatch : List Char → List Char → Bool
  | [], _ => true
  | _ :: _, [] => false
  | p :: ps, h :: hs => (p = h) && chMatch ps hs

/-- Does the pattern occur anywhere in the haystack? -/
def chFind : List Char → List Char → Bool
  | pat, [] => chMatch pat []
  | pat, h :: hs => chMatch pat (h :: hs) || chFind pat hs

/-- Substring containment, the semantics of Python's `pat in s` /
`Series.str.contains(pat)` for a plain (regex-metacharacter-free) pattern. -/
def strContains (s pat : String) : Bool := chFind pat.data s.data

/-- ASCII upper-casing of one character, the effect of Python's `str.upper`
on the ASCII sector names this data uses. -/
def charUpper (c : Char) : Char :=
  if c.isLower then Char.ofNat (c.toNat - 32) else c

/-- ASCII lower-casing of one character. -/
def charLower (c : Char) : Char :=
  if c.isUpper then Char.ofNat (c.toNat + 32) else c

/-- Python's `str.upper` on ASCII strings. -/
def upperStr (s : String) : String := ⟨s.data.map charUpper⟩

/-- Case-insensitive substring test: the semantics of
`re.search(pat, s, re.IGNORECASE)` for a plain alphabetic pattern. -/
def containsCI (s pat : String) : Bool :=
  strContains ⟨s.data.map charLower⟩ ⟨pat.data.map charLower⟩

/-- Lexicographic comparison on code points, the order Python's `sorted`
uses on strings. -/
def chLe : List Char → List Char → Bool
  | [], _ => true
  | _ :: _, [] => false
  | a :: as, b :: bs => if a = b then chLe as bs else decide (a < b)

def strLeB (a b : String) : Bool := chLe a.data b.data

theorem chLe_total : ∀ a b : List Char, chLe a b = true ∨ chLe b a = true
  | [], _ => Or.inl rfl
  | _ :: _, [] => Or.inr rfl
  | a :: as, b :: bs => by
    by_cases hab : a = b
    · subst hab
      simpa [chLe] using chLe_total as bs
    · rcases lt_or_gt_of_ne (show a ≠ b from hab) with h | h
      · left
        simp [chLe, hab, h]
      · right
        have hba : ¬b = a := fun he => hab he.symm
        simp only [chLe, if_neg hba, decide_eq_true_eq]
        exact h

theorem chLe_trans : ∀ a b c : List Char,
    chLe a b = true → chLe b c = true → chLe a c = true
  | [], _, _, _, _ => rfl
  | _ :: _, [], _, h, _ => by simp [chLe] at h
  | _ :: _, _ :: _, [], _, h => by simp [chLe] at h
  | a :: as, b :: bs, c :: cs, hab, hbc => by
    by_cases h1 : a = b
    · subst h1
      simp only [chLe, if_pos rfl] at hab
      by_cases h2 : a = c
      · subst h2
        simp only [chLe, if_pos rfl] at hbc ⊢
        exact chLe_trans as bs cs hab hbc
      · simpa [chLe, h2] using (by simpa [chLe, h2] using hbc)
    · simp only [chLe, if_neg h1, decide_eq_true_eq] at hab
      by_cases h2 : b = c
      · subst h2
        simp [chLe, h1, hab]
      · simp only [chLe, if_neg h2, decide_eq_true_eq] at hbc
        have hac : a < c := lt_trans hab hbc
        simp [chLe, ne_of_lt hac, hac]

theorem strLeB_total (a b : String) : strLeB a b = true ∨ strLeB b a = true :=
  chLe_total a.data b.data

theorem strLeB_trans (a b c : String) :
    strLeB a b = true → strLeB b c = true → strLeB a c = true :=
  chLe_trans a.data b.data c.data

/-- Floor of a nonnegative rational as a natural number (`natAbs` equals
`toNat` on the nonnegative numerators that arise here); pandas/numpy use
this to pick the lower order statistic for linear interpolation. -/
def ratFloorNat (q : ℚ) : ℕ := q.num.natAbs / q.den

theorem ratFloorNat_eq_floor (q : ℚ) (h : 0 ≤ q) : (ratFloorNat q : ℤ) = ⌊q⌋ := by
  rw [Rat.floor_def]
  unfold ratFloorNat
  have hnum : 0 ≤ q.num := Rat.num_nonneg.mpr h
  rw [Int.ofNat_tdiv]
  rw [Int.natAbs_of_nonneg hnum]
  rw [Int.tdiv_eq_ediv hnum (by positivity)]

/-! ## Data model

One CSV row after numeric coercion (`pd.to_numeric(..., errors='coerce')`):
a cell is a finite number, the `-inf` sentinel that `ev_outlier.py` warns
about and excludes, or missing (NaN — absent cell or unparseable text). -/

inductive CsvVal where
  | num (q : ℚ)
  | negInf
  | missing
deriving DecidableEq, Repr

def CsvVal.toOption : CsvVal → Option ℚ
  | num q => some q
  | negInf => none
  | missing => none

structure Instrument where
  symbol : String
  sector : String
  industry : String
  mcapEv : CsvVal
  varToAsk : CsvVal
  tradeMode : Option ℚ
deriving DecidableEq, Repr

/-- The numeric `MCap/EV (%)` value of a row, `none` when NaN. -/
def mcapVal (r : Instrument) : Option ℚ := r.mcapEv.toOption

/-- The numeric `VaR_to_Ask_Ratio` value of a row, `none` when NaN. -/
def varVal (r : Instrument) : Option ℚ := r.varToAsk.toOption

structure Bounds where
  lower : ℚ
  upper : ℚ
deriving DecidableEq, Repr

/-! ## Statistics: pandas `quantile` and the Tukey fences -/

def qLe (a b : ℚ) : Bool := decide (a ≤ b)

/-- `Series.quantile(p)` with the default `interpolation='linear'` on an
ascending-sorted list of the non-missing values: position `h = p*(n-1)`,
linear interpolation between the order statistics at `⌊h⌋` and `⌊h⌋+1`. -/
def quantileSorted (xs : List ℚ) (p : ℚ) : Option ℚ :=
  match xs with
  | [] => none
  | _ :: _ =>
    let h : ℚ := p * ((xs.length : ℚ) - 1)
    let i : ℕ := ratFloorNat h
    let lo := xs.getD i 0
    let hi := xs.getD (i + 1) lo
    some (lo + (h - (i : ℚ)) * (hi - lo))

/-- `Series.quantile(p)` (pandas skips NaN; callers pass the non-missing
values). -/
def quantile (vals : List ℚ) (p : ℚ) : Option ℚ :=
  quantileSorted (insSortOn qLe vals) p

/-- Q1/Q3/IQR and the Tukey fences, exactly the arithmetic of
`analyze_group`: bounds are produced iff `IQR > 0`. -/
def tukeyBounds (vals : List ℚ) : Option Bounds :=
  match quantile vals (1/4), quantile vals (3/4) with
  | some q1, some q3 =>
    let iqr := q3 - q1
    if 0 < iqr then some ⟨q1 - 3/2 * iqr, q3 + 3/2 * iqr⟩ else none
  | _, _ => none

def MINIMUM_GROUP_SIZE : ℕ := 5

/-- One ratio column of `analyze_group`: silently exit when the group is
smaller than `MINIMUM_GROUP_SIZE`; otherwise compute the fences over the
column's non-missing values (the group length counts every row, missing
values included, as `len(group_df)` does). -/
def analyzeGroupCol (group_df : List Instrument) (col : Instrument → Option ℚ) :
    Option Bounds :=
  if group_df.length < MINIMUM_GROUP_SIZE then none
  else tukeyBounds (group_df.filterMap col)

/-! ## Grouping and group naming -/

/-- Is `ind` one of the `small_industries` of the tradable frame `df`
(an industry whose row count is below `MINIMUM_GROUP_SIZE`)? -/
def isSmallIndustry (df : List Instrument) (ind : String) : Bool :=
  (df.filter (fun r => r.industry = ind)).length < MINIMUM_GROUP_SIZE

/-- The rows of `df` belonging to small industries (`small_industries_df`). -/
def smallRowsOf (df : List Instrument) : List Instrument :=
  df.filter (fun r => isSmallIndustry df r.industry)

/-- The small-industry rows of a given sector (`sector_df`). -/
def sectorRows (sdf : List Instrument) (s : String) : List Instrument :=
  sdf.filter (fun r => r.sector = s)

/-- `f"AGGREGATED {sector.upper()} INDUSTRIES"`: the name the aggregation
loop of `find_mcap_ev_outliers` / `find_dual_outliers` gives a sector
aggregate (no special case for any sector). -/
def aggregatedGroupName (sector : String) : String :=
  "AGGREGATED " ++ upperStr sector ++ " INDUSTRIES"

/-- Group-name resolution inside `get_outlier_note` (identical in both
scripts): the row's own industry unless it is small, in which case the
sector-aggregate name, except that sector `'Undefined'` collapses to the
miscellaneous name. -/
def classifyGroupName (small : String → Bool) (industry sector : String) : String :=
  if small industry then
    if sector = "Undefined" then "AGGREGATED MISCELLANEOUS"
    else aggregatedGroupName sector
  else industry

/-- The group under which `find_mcap_ev_outliers` / `find_dual_outliers`
actually place a row when computing bounds: its own industry when large;
otherwise its sector aggregate when that aggregate reaches
`MINIMUM_GROUP_SIZE`; otherwise the row is folded into the miscellaneous
accumulator, analysed (if at all) under `"AGGREGATED MISCELLANEOUS"`. -/
def boundGroupName (df : List Instrument) (r : Instrument) : String :=
  if isSmallIndustry df r.industry then
    if MINIMUM_GROUP_SIZE ≤ (sectorRows (smallRowsOf df) r.sector).length then
      aggregatedGroupName r.sector
    else "AGGREGATED MISCELLANEOUS"
  else r.industry

/-- The industries of `df` with at least `MINIMUM_GROUP_SIZE` rows, in the
sorted order of the `for industry in sorted(large_industries)` loop. -/
def largeIndustriesOf (df : List Instrument) : List String :=
  insSortOn strLeB
    ((dedupBy id (df.map (·.industry))).filter (fun i => ¬ isSmallIndustry df i))

/-- The distinct sectors of the small-industry rows, in the sorted order of
the `for sector in sorted(...)` loop. -/
def sortedSectorsOf (sdf : List Instrument) : List String :=
  insSortOn strLeB (dedupBy id (sdf.map (·.sector)))

/-- The named groups handed to `analyze_group`, in program order: sorted
large industries, then sector aggregates of size ≥ 5, then the
miscellaneous accumulator (whose undersized-ness `analyze_group` itself
rejects). -/
def pipelineGroups (df : List Instrument) : List (String × List Instrument) :=
  let sdf := smallRowsOf df
  let sectors := sortedSectorsOf sdf
  let largeGroups := (largeIndustriesOf df).map
    (fun i => (i, df.filter (fun r => r.industry = i)))
  let aggGroups := (sectors.filter
      (fun s => MINIMUM_GROUP_SIZE ≤ (sectorRows sdf s).length)).map
    (fun s => (aggregatedGroupName s, sectorRows sdf s))
  let miscSectors := sectors.filter
    (fun s => (sectorRows sdf s).length < MINIMUM_GROUP_SIZE)
  let miscGroup :=
    if miscSectors.isEmpty then []
    else [("AGGREGATED MISCELLANEOUS", (miscSectors.map (sectorRows sdf)).flatten)]
  largeGroups ++ aggGroups ++ miscGroup

/-- The bounds dictionary for one ratio column: fold `analyze_group` over
the groups in program order, later stores overwriting earlier ones (as dict
assignment does). -/
def boundsDictOf (df : List Instrument) (col : Instrument → Option ℚ) :
    String → Option Bounds :=
  (pipelineGroups df).foldl
    (fun acc gp =>
      match analyzeGroupCol gp.2 col with
      | some b => fun name => if name = gp.1 then some b else acc name
      | none => acc)
    (fun _ => none)

/-! ## Top/bottom-N display count selection (identical in both scripts) -/

def STOCKS_TOP : ℕ := 50
def CFD_TOP : ℕ := 40
def FUTURES_TOP : ℕ := 5
def DEFAULT_TOP : ℕ := 20

/-- The `TOP_N_DISPLAY` value after the `re.search(..., re.IGNORECASE)`
cascade at the start of `find_mcap_ev_outliers` / `find_dual_outliers`:
first match wins in the order Stocks, CFD, Futures; otherwise the module
default 20 stands. -/
def selectTopN (filename : String) : ℕ :=
  if containsCI filename "Stocks" then STOCKS_TOP
  else if containsCI filename "CFD" then CFD_TOP
  else if containsCI filename "Futures" then FUTURES_TOP
  else DEFAULT_TOP

/-! ## `ev_outlier.py` (single-metric script) -/

namespace EvOutlier

/-- `get_outlier_note` of `ev_outlier.py`.  A NaN ratio compares false on
both `<` and `>`, so a missing value always falls through to the default
note, exactly as the `none` branch here does. -/
def get_outlier_note (bounds_dict : String → Option Bounds)
    (small : String → Bool) (r : Instrument) : String :=
  let group_name := classifyGroupName small r.industry r.sector
  match bounds_dict group_name, mcapVal r with
  | some b, some ratio =>
    if ratio < b.lower then "(LOW - Statistically Significant)"
    else if b.upper < ratio then "(HIGH - Statistically Significant)"
    else "(Within Normal Range)"
  | _, _ => "(Within Normal Range)"

/-- `analyze_group` of `ev_outlier.py`: the bounds it stores into
`bounds_dict` for its group (nothing below the minimum size or when
`IQR <= 0`). -/
def analyze_group (group_df : List Instrument) : Option Bounds :=
  analyzeGroupCol group_df mcapVal

/-- The `all_outliers` frame selected inside `analyze_group`
(`group_df[(ratio < lower_bound) | (ratio > upper_bound)]`); empty when the
group was skipped.  A NaN ratio satisfies neither comparison. -/
def all_outliers (group_df : List Instrument) : List Instrument :=
  match analyze_group group_df with
  | some b => group_df.filter (fun r =>
      match mcapVal r with
      | some v => decide (v < b.lower) || decide (b.upper < v)
      | none => false)
  | none => []

/-- The `-inf` exclusion `df = df[df['MCap/EV (%)'] != -np.inf]` (rows with
NaN or any finite value stay). -/
def cleanSingle (rows : List Instrument) : List Instrument :=
  rows.filter (fun r => r.mcapEv ≠ CsvVal.negInf)

/-- `unactionable_symbols_df`: the close-only (`TradeMode == 3`) rows. -/
def unactionableSingle (rows : List Instrument) : List Instrument :=
  (cleanSingle rows).filter (fun r => r.tradeMode = some 3)

/-- `df = df[df['TradeMode'] != 3]`: the tradable frame all grouping,
bounds and ranking run on. -/
def tradableSingle (rows : List Instrument) : List Instrument :=
  (cleanSingle rows).filter (fun r => r.tradeMode ≠ some 3)

end EvOutlier

/-! ## `ev_var_outlier.py` (dual-metric script) -/

namespace EvVarOutlier

/-- The `mcap_note` fragment of `get_outlier_note`. -/
def mcapFlag (b? : Option Bounds) (v? : Option ℚ) : String :=
  match b?, v? with
  | some b, some v =>
    if v < b.lower then "MCap/EV (LOW)"
    else if b.upper < v then "MCap/EV (HIGH)"
    else ""
  | _, _ => ""

/-- The `var_note` fragment of `get_outlier_note`. -/
def varFlag (b? : Option Bounds) (v? : Option ℚ) : String :=
  match b?, v? with
  | some b, some v =>
    if v < b.lower then "VaR (LOW)"
    else if b.upper < v then "VaR (HIGH)"
    else ""
  | _, _ => ""

/-- `get_outlier_note` of `ev_var_outlier.py`: compose the two dimension
flags; Python string truthiness makes `if mcap_note and var_note` the
both-non-empty test. -/
def get_outlier_note (mcap_bounds var_bounds : String → Option Bounds)
    (small : String → Bool) (r : Instrument) : String :=
  let group_name := classifyGroupName small r.industry r.sector
  let mcap_note := mcapFlag (mcap_bounds group_name) (mcapVal r)
  let var_note := varFlag (var_bounds group_name) (varVal r)
  if mcap_note ≠ "" then
    if var_note ≠ "" then "Dual Outlier: " ++ mcap_note ++ ", " ++ var_note
    else "MCap/EV Outlier: " ++ mcap_note
  else ""

/-- `analyze_group` of `ev_var_outlier.py`: the pair of bound entries it
stores for `(MCap/EV (%), VaR_to_Ask_Ratio)`. -/
def analyze_group (group_df : List Instrument) : Option Bounds × Option Bounds :=
  if group_df.length < MINIMUM_GROUP_SIZE then (none, none)
  else (tukeyBounds (group_df.filterMap mcapVal),
        tukeyBounds (group_df.filterMap varVal))

/-- The cleaning of `find_dual_outliers`: `replace([inf, -inf], nan)`
followed by `dropna(subset=['MCap/EV (%)', 'VaR_to_Ask_Ratio'])` keeps
exactly the rows with finite numbers in both ratio columns. -/
def cleanDual (rows : List Instrument) : List Instrument :=
  rows.filter (fun r => (mcapVal r).isSome && (varVal r).isSome)

/-- `unactionable_symbols_df` / `close_only_symbols`. -/
def unactionableDual (rows : List Instrument) : List Instrument :=
  (cleanDual rows).filter (fun r => r.tradeMode = some 3)

/-- `df = df[df['TradeMode'] != 3]`: the tradable frame. -/
def tradableDual (rows : List Instrument) : List Instrument :=
  (cleanDual rows).filter (fun r => r.tradeMode ≠ some 3)

/-- `df['Note'] = df.apply(get_outlier_note, ...)`: every tradable row
paired with its note, bounds dictionaries and small-industry set computed
from the same frame. -/
def notesOf (df : List Instrument) : List (Instrument × String) :=
  df.map (fun r =>
    (r, get_outlier_note (boundsDictOf df mcapVal) (boundsDictOf df varVal)
          (fun i => isSmallIndustry df i) r))

/-- `dual_outliers = df[df['Note'].str.contains('Dual Outlier')]`. -/
def dual_outliers (df : List Instrument) : List (Instrument × String) :=
  (notesOf df).filter (fun p => strContains p.2 "Dual Outlier")

/-- `mcap_outliers = df[df['Note'].str.contains('MCap/EV Outlier')]`. -/
def mcap_outliers (df : List Instrument) : List (Instrument × String) :=
  (notesOf df).filter (fun p => strContains p.2 "MCap/EV Outlier")

def varAscLe (a b : Instrument) : Bool :=
  decide ((varVal a).getD 0 ≤ (varVal b).getD 0)

def varDescLe (a b : Instrument) : Bool :=
  decide ((varVal b).getD 0 ≤ (varVal a).getD 0)

/-- `df.sort_values(by='VaR_to_Ask_Ratio', ascending=True).head(N)['Symbol']`. -/
def bottom_n_var_symbols (df : List Instrument) (n : ℕ) : List String :=
  ((insSortOn varAscLe df).take n).map (·.symbol)

/-- `df.sort_values(by='VaR_to_Ask_Ratio', ascending=False).head(N)['Symbol']`. -/
def top_n_var_symbols (df : List Instrument) (n : ℕ) : List String :=
  ((insSortOn varDescLe df).take n).map (·.symbol)

/-- `mcap_in_bottom_n`: MCap/EV outliers whose symbol is in the bottom-N
VaR slice, their note tagged `" in Bottom {N} VaR"`. -/
def mcap_in_bottom_n (df : List Instrument) (n : ℕ) : List (Instrument × String) :=
  ((mcap_outliers df).filter
      (fun p => decide (p.1.symbol ∈ bottom_n_var_symbols df n))).map
    (fun p => (p.1, p.2 ++ " in Bottom " ++ toString n ++ " VaR"))

/-- `mcap_in_top_n`: likewise for the top-N VaR slice. -/
def mcap_in_top_n (df : List Instrument) (n : ℕ) : List (Instrument × String) :=
  ((mcap_outliers df).filter
      (fun p => decide (p.1.symbol ∈ top_n_var_symbols df n))).map
    (fun p => (p.1, p.2 ++ " in Top " ++ toString n ++ " VaR"))

def mcapDescLe (a b : Instrument × String) : Bool :=
  decide ((mcapVal b.1).getD 0 ≤ (mcapVal a.1).getD 0)

/-- The concatenation handed to `pd.concat` before deduplication. -/
def outlierConcat (df : List Instrument) (n : ℕ) : List (Instrument × String) :=
  dual_outliers df ++ mcap_in_bottom_n df n ++ mcap_in_top_n df n

/-- `actionable_outliers = pd.concat([...]).drop_duplicates(subset=['Symbol'])
.sort_values(by='MCap/EV (%)', ascending=False)`. -/
def actionable_outliers (df : List Instrument) (n : ℕ) : List (Instrument × String) :=
  insSortOn mcapDescLe (dedupBy (fun p => p.1.symbol) (outlierConcat df n))

end EvVarOutlier

/-! ## Claims -/

/-- C2: `analyze_group` is a no-op when the group has fewer than 5
instruments; for a group with at least 5 it computes, per ratio column over
the column's non-missing values using linear-interpolation percentiles, Q1,
Q3 and IQR = Q3 - Q1, and stores bounds (Q1 - 1.5·IQR, Q3 + 1.5·IQR) for
that column iff IQR > 0; on the ratio values [1, 2, 3, 4, 100] it yields
Q1 = 2, Q3 = 4, IQR = 2 and bounds [-1, 7]. -/
theorem C2_bound_computation :
    (∀ group_df : List Instrument, group_df.length < MINIMUM_GROUP_SIZE →
      EvVarOutlier.analyze_group group_df = (none, none)) ∧
    (∀ group_df : List Instrument, MINIMUM_GROUP_SIZE ≤ group_df.length →
      EvVarOutlier.analyze_group group_df =
        (tukeyBounds (group_df.filterMap mcapVal),
         tukeyBounds (group_df.filterMap varVal))) ∧
    (∀ (vals : List ℚ) (q1 q3 : ℚ), quantile vals (1/4) = some q1 →
      quantile vals (3/4) = some q3 →
      (0 < q3 - q1 →
        tukeyBounds vals = some ⟨q1 - 3/2 * (q3 - q1), q3 + 3/2 * (q3 - q1)⟩) ∧
      (q3 - q1 ≤ 0 → tukeyBounds vals = none)) ∧
    (quantile [1, 2, 3, 4, 100] (1/4) = some 2 ∧
     quantile [1, 2, 3, 4, 100] (3/4) = some 4 ∧
     tukeyBounds [1, 2, 3, 4, 100] = some ⟨-1, 7⟩) ∧
    (∀ group_df : List Instrument, group_df.length < MINIMUM_GROUP_SIZE →
      EvOutlier.analyze_group group_df = none) ∧
    (∀ group_df : List Instrument, MINIMUM_GROUP_SIZE ≤ group_df.length →
      EvOutlier.analyze_group group_df =
        tukeyBounds (group_df.filterMap mcapVal)) := by
  refine ⟨?_, ?_, ?_, ⟨?_, ?_, ?_⟩, ?_, ?_⟩
  · intro group_df h
    unfold EvVarOutlier.analyze_group
    rw [if_pos h]
  · intro group_df h
    unfold EvVarOutlier.analyze_group
    rw [if_neg (Nat.not_lt.mpr h)]
  · intro vals q1 q3 h1 h3
    refine ⟨?_, ?_⟩
    · intro hiqr
      unfold tukeyBounds
      rw [h1, h3]
      show (if 0 < q3 - q1 then
          some (Bounds.mk (q1 - 3/2 * (q3 - q1)) (q3 + 3/2 * (q3 - q1))) else none) =
        some ⟨q1 - 3/2 * (q3 - q1), q3 + 3/2 * (q3 - q1)⟩
      rw [if_pos hiqr]
    · intro hiqr
      unfold tukeyBounds
      rw [h1, h3]
      show (if 0 < q3 - q1 then
          some (Bounds.mk (q1 - 3/2 * (q3 - q1)) (q3 + 3/2 * (q3 - q1))) else none) =
        none
      rw [if_neg (not_lt.mpr hiqr)]
  · norm_num [quantile, quantileSorted, insSortOn, insertLe, qLe, ratFloorNat]
  · norm_num [quantile, quantileSorted, insSortOn, insertLe, qLe, ratFloorNat]
  · norm_num [tukeyBounds, quantile, quantileSorted, insSortOn, insertLe, qLe,
      ratFloorNat]
  · intro group_df h
    unfold EvOutlier.analyze_group analyzeGroupCol
    rw [if_pos h]
  · intro group_df h
    unfold EvOutlier.analyze_group analyzeGroupCol
    rw [if_neg (Nat.not_lt.mpr h)]

theorem C2_bound_computation_witness :
    EvVarOutlier.analyze_group [] = (none, none) ∧
    tukeyBounds [7, 7, 7, 7, 7] = none :=
  ⟨C2_bound_computation.1 [] (by decide),
   (C2_bound_computation.2.2.1 [7, 7, 7, 7, 7] 7 7
      (by norm_num [quantile, quantileSorted, insSortOn, insertLe, qLe, ratFloorNat])
      (by norm_num [quantile, quantileSorted, insSortOn, insertLe, qLe,
        ratFloorNat])).2 (by norm_num)⟩

/-- C7: the top/bottom-N display count comes from a case-insensitive
substring match on the filename, first match winning in the order Stocks
(50), CFD (40), Futures (5), default 20; with the spec's four examples. -/
theorem C7_top_n_selection :
    selectTopN "Stocks_2024.csv" = 50 ∧
    selectTopN "cfd_data.csv" = 40 ∧
    selectTopN "futures.csv" = 5 ∧
    selectTopN "other.csv" = 20 ∧
    (∀ f, containsCI f "Stocks" = true → selectTopN f = 50) ∧
    (∀ f, containsCI f "Stocks" = false → containsCI f "CFD" = true →
      selectTopN f = 40) ∧
    (∀ f, containsCI f "Stocks" = false → containsCI f "CFD" = false →
      containsCI f "Futures" = true → selectTopN f = 5) ∧
    (∀ f, containsCI f "Stocks" = false → containsCI f "CFD" = false →
      containsCI f "Futures" = false → selectTopN f = 20) := by
  refine ⟨by decide, by decide, by decide, by decide, ?_, ?_, ?_, ?_⟩
  · intro f h
    simp [selectTopN, h, STOCKS_TOP]
  · intro f h1 h2
    simp [selectTopN, h1, h2, CFD_TOP]
  · intro f h1 h2 h3
    simp [selectTopN, h1, h2, h3, FUTURES_TOP]
  · intro f h1 h2 h3
    simp [selectTopN, h1, h2, h3, DEFAULT_TOP]

theorem C7_top_n_selection_witness : selectTopN "my_STOCKS_list.csv" = 50 :=
  C7_top_n_selection.2.2.2.2.1 "my_STOCKS_list.csv" (by decide)

/-- C4 (amended): the classification lookup collapses sector `'Undefined'`
to `"AGGREGATED MISCELLANEOUS"`, but the aggregation step does not: it names
every sector aggregate `"AGGREGATED {SECTOR upper-cased} INDUSTRIES"`,
`'Undefined'` included; the two functions agree on the name only for
sectors other than `'Undefined'`. -/
theorem C4_undefined_sector_naming :
    (∀ (small : String → Bool) (industry : String), small industry = true →
      classifyGroupName small industry "Undefined" = "AGGREGATED MISCELLANEOUS") ∧
    aggregatedGroupName "Undefined" = "AGGREGATED UNDEFINED INDUSTRIES" ∧
    (∀ (small : String → Bool) (industry sector : String), small industry = true →
      sector ≠ "Undefined" →
      classifyGroupName small industry sector = aggregatedGroupName sector) := by
  refine ⟨?_, by decide, ?_⟩
  · intro small industry h
    simp [classifyGroupName, h]
  · intro small industry sector h hs
    simp [classifyGroupName, h, hs]

theorem C4_undefined_sector_naming_witness :
    classifyGroupName (fun _ => true) "Water Utilities" "Undefined" =
      "AGGREGATED MISCELLANEOUS" :=
  C4_undefined_sector_naming.1 (fun _ => true) "Water Utilities" rfl

/-- C4 counterexample: for a small industry of sector `'Undefined'` the
aggregation step (`f"AGGREGATED {sector.upper()} INDUSTRIES"`, line 274 of
`ev_outlier.py` and line 213 of `ev_var_outlier.py`) constructs
`"AGGREGATED UNDEFINED INDUSTRIES"`, not `"AGGREGATED MISCELLANEOUS"`, so
the two naming functions disagree there. -/
theorem C4_undefined_sector_naming_cex :
    aggregatedGroupName "Undefined" ≠ "AGGREGATED MISCELLANEOUS" ∧
    classifyGroupName (fun _ => true) "Water Utilities" "Undefined" =
      "AGGREGATED MISCELLANEOUS" ∧
    aggregatedGroupName "Undefined" ≠
      classifyGroupName (fun _ => true) "Water Utilities" "Undefined" := by
  refine ⟨by decide, by decide, by decide⟩

/-- C1 (amended): for a tradable instrument the group name used at
bound-computation time agrees with the one resolved at classification time
when its industry is large, when it is small with a non-`'Undefined'`
sector whose aggregate reached the minimum size, and when it is small with
sector `'Undefined'` whose aggregate stayed below the minimum size (the
miscellaneous fold).  In the remaining two cases — a small industry folded
into the miscellaneous group with a sector other than `'Undefined'`, and a
small industry whose `'Undefined'` sector aggregate reached the minimum
size — the two names differ (see the counterexample). -/
theorem C1_group_resolution (df : List Instrument) (r : Instrument) :
    (isSmallIndustry df r.industry = false →
      boundGroupName df r =
        classifyGroupName (isSmallIndustry df) r.industry r.sector) ∧
    (isSmallIndustry df r.industry = true → r.sector ≠ "Undefined" →
      MINIMUM_GROUP_SIZE ≤ (sectorRows (smallRowsOf df) r.sector).length →
      boundGroupName df r =
        classifyGroupName (isSmallIndustry df) r.industry r.sector) ∧
    (isSmallIndustry df r.industry = true → r.sector = "Undefined" →
      (sectorRows (smallRowsOf df) r.sector).length < MINIMUM_GROUP_SIZE →
      boundGroupName df r =
        classifyGroupName (isSmallIndustry df) r.industry r.sector) := by
  refine ⟨?_, ?_, ?_⟩
  · intro h
    simp [boundGroupName, classifyGroupName, h]
  · intro h hs hc
    simp [boundGroupName, classifyGroupName, h, hs, hc]
  · intro h hs hc
    rw [hs] at hc
    simp [boundGroupName, classifyGroupName, h, hs, not_le.mpr hc]

theorem C1_group_resolution_witness :
    boundGroupName []
        ⟨"SYM", "Undefined", "Lone Industry", CsvVal.num 1, CsvVal.num 1, some 0⟩ =
      classifyGroupName (isSmallIndustry []) "Lone Industry" "Undefined" :=
  (C1_group_resolution []
    ⟨"SYM", "Undefined", "Lone Industry", CsvVal.num 1, CsvVal.num 1, some 0⟩).2.2
    (by decide) rfl (by decide)

/-- Five tradable rows, each its own (hence small) industry; sectors Foo
(2 rows) and Bar (3 rows) are both undersized, so all five rows fold into
the miscellaneous accumulator, whose MCap/EV values are 1, 2, 3, 4, 100. -/
def c1df : List Instrument :=
  [⟨"SYM1", "Foo", "IndA", CsvVal.num 1, CsvVal.num 1, some 0⟩,
   ⟨"SYM2", "Foo", "IndB", CsvVal.num 2, CsvVal.num 1, some 0⟩,
   ⟨"SYM3", "Bar", "IndC", CsvVal.num 3, CsvVal.num 1, some 0⟩,
   ⟨"SYM4", "Bar", "IndD", CsvVal.num 4, CsvVal.num 1, some 0⟩,
   ⟨"SYM5", "Bar", "IndE", CsvVal.num 100, CsvVal.num 1, some 0⟩]

def c1row : Instrument := ⟨"SYM1", "Foo", "IndA", CsvVal.num 1, CsvVal.num 1, some 0⟩

/-- The miscellaneous accumulator built from `c1df`: the Bar rows (sorted
sector order puts Bar before Foo) followed by the Foo rows. -/
def c1misc : List Instrument :=
  [⟨"SYM3", "Bar", "IndC", CsvVal.num 3, CsvVal.num 1, some 0⟩,
   ⟨"SYM4", "Bar", "IndD", CsvVal.num 4, CsvVal.num 1, some 0⟩,
   ⟨"SYM5", "Bar", "IndE", CsvVal.num 100, CsvVal.num 1, some 0⟩,
   ⟨"SYM1", "Foo", "IndA", CsvVal.num 1, CsvVal.num 1, some 0⟩,
   ⟨"SYM2", "Foo", "IndB", CsvVal.num 2, CsvVal.num 1, some 0⟩]

theorem c1df_groups : pipelineGroups c1df = [("AGGREGATED MISCELLANEOUS", c1misc)] := by
  simp [pipelineGroups, largeIndustriesOf, sortedSectorsOf, smallRowsOf,
    sectorRows, isSmallIndustry, dedupBy, insSortOn, insertLe, strLeB, chLe,
    c1df, c1misc, MINIMUM_GROUP_SIZE]

theorem c1misc_bounds : analyzeGroupCol c1misc mcapVal = some ⟨-1, 7⟩ := by
  norm_num [analyzeGroupCol, MINIMUM_GROUP_SIZE, tukeyBounds, quantile,
    quantileSorted, insSortOn, insertLe, qLe, ratFloorNat, mcapVal,
    CsvVal.toOption, c1misc]

theorem c1df_boundsDict (name : String) :
    boundsDictOf c1df mcapVal name =
      if name = "AGGREGATED MISCELLANEOUS" then some ⟨-1, 7⟩ else none := by
  unfold boundsDictOf
  rw [c1df_groups]
  simp [c1misc_bounds]

/-- C1 counterexample: `SYM1` sits in a small industry whose sector `Foo`
aggregate has only 2 rows, so its ratio value enters bound computation
inside `"AGGREGATED MISCELLANEOUS"` (which does receive bounds), yet
classification resolves `"AGGREGATED FOO INDUSTRIES"`, a group with no
stored bounds: the two group-resolution rules disagree, refuting the claim
for exactly the fold case it singles out. -/
theorem C1_group_resolution_cex :
    c1row ∈ c1df ∧
    isSmallIndustry c1df c1row.industry = true ∧
    (sectorRows (smallRowsOf c1df) c1row.sector).length < MINIMUM_GROUP_SIZE ∧
    boundGroupName c1df c1row = "AGGREGATED MISCELLANEOUS" ∧
    classifyGroupName (isSmallIndustry c1df) c1row.industry c1row.sector =
      "AGGREGATED FOO INDUSTRIES" ∧
    boundsDictOf c1df mcapVal "AGGREGATED MISCELLANEOUS" = some ⟨-1, 7⟩ ∧
    boundsDictOf c1df mcapVal "AGGREGATED FOO INDUSTRIES" = none ∧
    boundGroupName c1df c1row ≠
      classifyGroupName (isSmallIndustry c1df) c1row.industry c1row.sector := by
  refine ⟨by decide, by decide, by decide, by decide, by decide, ?_, ?_, by decide⟩
  · rw [c1df_boundsDict]
    simp
  · rw [c1df_boundsDict]
    simp

/-- C10: in the single-metric script a row whose MCap/EV value is missing
(NaN: absent or unparseable) survives the `-inf` exclusion, is classified
`'(Within Normal Range)'` no matter what bounds exist, and contributes
nothing to the non-missing value list any group's quantiles and bounds are
computed from. -/
theorem C10_missing_value_handling (rows : List Instrument) (r : Instrument)
    (hmem : r ∈ rows) (hmiss : r.mcapEv = CsvVal.missing) :
    r ∈ EvOutlier.cleanSingle rows ∧
    (∀ (bounds_dict : String → Option Bounds) (small : String → Bool),
      EvOutlier.get_outlier_note bounds_dict small r = "(Within Normal Range)") ∧
    (∀ l1 l2 : List Instrument,
      (l1 ++ r :: l2).filterMap mcapVal = (l1 ++ l2).filterMap mcapVal) ∧
    (∀ l1 l2 : List Instrument,
      tukeyBounds ((l1 ++ r :: l2).filterMap mcapVal) =
        tukeyBounds ((l1 ++ l2).filterMap mcapVal)) := by
  have hval : mcapVal r = none := by
    simp [mcapVal, hmiss, CsvVal.toOption]
  have hfm : ∀ l1 l2 : List Instrument,
      (l1 ++ r :: l2).filterMap mcapVal = (l1 ++ l2).filterMap mcapVal := by
    intro l1 l2
    simp [List.filterMap_append, List.filterMap_cons, hval]
  refine ⟨?_, ?_, hfm, ?_⟩
  · simp only [EvOutlier.cleanSingle, List.mem_filter]
    refine ⟨hmem, ?_⟩
    simp [hmiss]
  · intro bounds_dict small
    cases hb : bounds_dict (classifyGroupName small r.industry r.sector) with
    | none => simp [EvOutlier.get_outlier_note, hb]
    | some b => simp [EvOutlier.get_outlier_note, hb, hval]
  · intro l1 l2
    rw [hfm]

theorem C10_missing_value_handling_witness :
    EvOutlier.get_outlier_note (fun _ => some ⟨0, 1⟩) (fun _ => false)
      ⟨"NANROW", "Foo", "IndA", CsvVal.missing, CsvVal.missing, some 0⟩ =
      "(Within Normal Range)" :=
  (C10_missing_value_handling
    [⟨"NANROW", "Foo", "IndA", CsvVal.missing, CsvVal.missing, some 0⟩]
    ⟨"NANROW", "Foo", "IndA", CsvVal.missing, CsvVal.missing, some 0⟩
    (by decide) rfl).2.1 (fun _ => some ⟨0, 1⟩) (fun _ => false)

/-- C3: single-metric classification returns LOW exactly below the stored
lower bound, HIGH exactly above the stored upper bound, otherwise (including
when the resolved group has no stored bounds) `'(Within Normal Range)'`;
and for a group of at least 5 rows with positive IQR, `analyze_group`
selects as outliers exactly the rows whose value lies outside the fences. -/
theorem C3_single_metric_classification :
    (∀ (bounds_dict : String → Option Bounds) (small : String → Bool)
        (r : Instrument) (b : Bounds) (v : ℚ),
      bounds_dict (classifyGroupName small r.industry r.sector) = some b →
      mcapVal r = some v →
      EvOutlier.get_outlier_note bounds_dict small r =
        (if v < b.lower then "(LOW - Statistically Significant)"
         else if b.upper < v then "(HIGH - Statistically Significant)"
         else "(Within Normal Range)")) ∧
    (∀ (bounds_dict : String → Option Bounds) (small : String → Bool)
        (r : Instrument),
      bounds_dict (classifyGroupName small r.industry r.sector) = none →
      EvOutlier.get_outlier_note bounds_dict small r = "(Within Normal Range)") ∧
    (∀ (group_df : List Instrument) (b : Bounds),
      MINIMUM_GROUP_SIZE ≤ group_df.length →
      tukeyBounds (group_df.filterMap mcapVal) = some b →
      ∀ r : Instrument,
        r ∈ EvOutlier.all_outliers group_df ↔
          r ∈ group_df ∧ ∃ v, mcapVal r = some v ∧ (v < b.lower ∨ b.upper < v)) := by
  refine ⟨?_, ?_, ?_⟩
  · intro bounds_dict small r b v hb hv
    simp [EvOutlier.get_outlier_note, hb, hv]
  · intro bounds_dict small r hb
    simp [EvOutlier.get_outlier_note, hb]
  · intro group_df b hlen hb r
    unfold EvOutlier.all_outliers EvOutlier.analyze_group analyzeGroupCol
    rw [if_neg (Nat.not_lt.mpr hlen), hb]
    rw [List.mem_filter]
    constructor
    · rintro ⟨hr, hcond⟩
      refine ⟨hr, ?_⟩
      cases hm : mcapVal r with
      | none => rw [hm] at hcond; exact absurd hcond (by simp)
      | some v =>
        rw [hm] at hcond
        simp only [Bool.or_eq_true, decide_eq_true_eq] at hcond
        exact ⟨v, rfl, hcond⟩
    · rintro ⟨hr, v, hv, hout⟩
      refine ⟨hr, ?_⟩
      rw [hv]
      simp only [Bool.or_eq_true, decide_eq_true_eq]
      exact hout

theorem C3_single_metric_classification_witness :
    (⟨"SYM5", "Bar", "IndE", CsvVal.num 100, CsvVal.num 1, some 0⟩ : Instrument) ∈
      EvOutlier.all_outliers c1misc :=
  ((C3_single_metric_classification.2.2 c1misc ⟨-1, 7⟩ (by decide)
      (by norm_num [tukeyBounds, quantile, quantileSorted, insSortOn, insertLe,
        qLe, ratFloorNat, mcapVal, CsvVal.toOption, c1misc]))
    ⟨"SYM5", "Bar", "IndE", CsvVal.num 100, CsvVal.num 1, some 0⟩).mpr
    ⟨by decide, 100, rfl, Or.inr (by decide)⟩

/-- C5: the dual-metric note is `"Dual Outlier: ..."` naming both flags when
both dimensions are flagged, `"MCap/EV Outlier: ..."` when only MCap/EV is
flagged, and empty when only VaR is flagged or neither is — a VaR-only
outlier never yields a standalone note. -/
theorem C5_dual_note_composition
    (mcap_bounds var_bounds : String → Option Bounds) (small : String → Bool)
    (r : Instrument) :
    (EvVarOutlier.mcapFlag
        (mcap_bounds (classifyGroupName small r.industry r.sector)) (mcapVal r) ≠ "" →
      EvVarOutlier.varFlag
        (var_bounds (classifyGroupName small r.industry r.sector)) (varVal r) ≠ "" →
      EvVarOutlier.get_outlier_note mcap_bounds var_bounds small r =
        "Dual Outlier: " ++
          EvVarOutlier.mcapFlag
            (mcap_bounds (classifyGroupName small r.industry r.sector)) (mcapVal r) ++
          ", " ++
          EvVarOutlier.varFlag
            (var_bounds (classifyGroupName small r.industry r.sector)) (varVal r)) ∧
    (EvVarOutlier.mcapFlag
        (mcap_bounds (classifyGroupName small r.industry r.sector)) (mcapVal r) ≠ "" →
      EvVarOutlier.varFlag
        (var_bounds (classifyGroupName small r.industry r.sector)) (varVal r) = "" →
      EvVarOutlier.get_outlier_note mcap_bounds var_bounds small r =
        "MCap/EV Outlier: " ++
          EvVarOutlier.mcapFlag
            (mcap_bounds (classifyGroupName small r.industry r.sector)) (mcapVal r)) ∧
    (EvVarOutlier.mcapFlag
        (mcap_bounds (classifyGroupName small r.industry r.sector)) (mcapVal r) = "" →
      EvVarOutlier.get_outlier_note mcap_bounds var_bounds small r = "") := by
  refine ⟨?_, ?_, ?_⟩
  · intro hm hv
    simp [EvVarOutlier.get_outlier_note, hm, hv]
  · intro hm hv
    simp [EvVarOutlier.get_outlier_note, hm, hv]
  · intro hm
    simp [EvVarOutlier.get_outlier_note, hm]

theorem C5_dual_note_composition_witness :
    EvVarOutlier.get_outlier_note (fun _ => some ⟨0, 1⟩) (fun _ => some ⟨0, 1⟩)
      (fun _ => false)
      ⟨"BOTH", "Foo", "IndA", CsvVal.num 5, CsvVal.num 5, some 0⟩ =
      "Dual Outlier: MCap/EV (HIGH), VaR (HIGH)" :=
  (C5_dual_note_composition (fun _ => some ⟨0, 1⟩) (fun _ => some ⟨0, 1⟩)
    (fun _ => false)
    ⟨"BOTH", "Foo", "IndA", CsvVal.num 5, CsvVal.num 5, some 0⟩).1
    (by decide) (by decide)

theorem pipelineGroups_subset (df : List Instrument) :
    ∀ gp ∈ pipelineGroups df, ∀ x ∈ gp.2, x ∈ df := by
  intro gp hgp x hx
  unfold pipelineGroups at hgp
  simp only [List.mem_append] at hgp
  rcases hgp with (h | h) | h
  · rcases List.mem_map.mp h with ⟨i, hi, rfl⟩
    exact List.mem_of_mem_filter hx
  · rcases List.mem_map.mp h with ⟨s, hs, rfl⟩
    exact List.mem_of_mem_filter (List.mem_of_mem_filter hx)
  · by_cases hempty :
        ((sortedSectorsOf (smallRowsOf df)).filter
          (fun s => (sectorRows (smallRowsOf df) s).length < MINIMUM_GROUP_SIZE)).isEmpty
    · rw [if_pos hempty] at h
      exact absurd h (List.not_mem_nil gp)
    · rw [if_neg hempty] at h
      rcases List.mem_singleton.mp h with rfl
      rcases List.mem_flatten.mp hx with ⟨l, hl, hxl⟩
      rcases List.mem_map.mp hl with ⟨s, hs, rfl⟩
      exact List.mem_of_mem_filter (List.mem_of_mem_filter hxl)

/-- C8 (amended): a TradeMode-3 row with both ratio values present lands in
the close-only listing as often as it occurs in the input (so exactly once
for a once-listed instrument), and is absent from the tradable frame; the
tradable frame — the sole input of grouping, bound computation,
classification and the VaR rankings — contains no TradeMode-3 row; and the
listing is the close-only filter of the cleaned input alone, independent of
any outlier computation.  (A TradeMode-3 row missing one of the two ratios
is dropped by the cleaner before the close-only split — see the
counterexample.) -/
theorem C8_close_only_exclusion (rows : List Instrument) :
    (∀ r : Instrument, r.tradeMode = some 3 → (mcapVal r).isSome →
      (varVal r).isSome →
      List.count r (EvVarOutlier.unactionableDual rows) = List.count r rows ∧
      r ∉ EvVarOutlier.tradableDual rows) ∧
    (∀ x ∈ EvVarOutlier.tradableDual rows, x.tradeMode ≠ some 3) ∧
    (∀ gp ∈ pipelineGroups (EvVarOutlier.tradableDual rows), ∀ x ∈ gp.2,
      x.tradeMode ≠ some 3) ∧
    (∀ n s, s ∈ EvVarOutlier.bottom_n_var_symbols (EvVarOutlier.tradableDual rows) n ∨
        s ∈ EvVarOutlier.top_n_var_symbols (EvVarOutlier.tradableDual rows) n →
      ∃ x ∈ EvVarOutlier.tradableDual rows, x.symbol = s ∧ x.tradeMode ≠ some 3) ∧
    (EvVarOutlier.unactionableDual rows =
      (EvVarOutlier.cleanDual rows).filter (fun x => x.tradeMode = some 3)) := by
  have htrad : ∀ x ∈ EvVarOutlier.tradableDual rows, x.tradeMode ≠ some 3 := by
    intro x hx
    have := List.of_mem_filter hx
    simpa using this
  refine ⟨?_, htrad, ?_, ?_, rfl⟩
  · intro r h3 hm hv
    constructor
    · unfold EvVarOutlier.unactionableDual EvVarOutlier.cleanDual
      rw [List.count_filter (by simp [h3]), List.count_filter (by simp [hm, hv])]
    · intro hmem
      exact htrad r hmem h3
  · intro gp hgp x hx
    exact htrad x (pipelineGroups_subset _ gp hgp x hx)
  · intro n s hs
    have hget : ∀ (le : Instrument → Instrument → Bool),
        s ∈ ((insSortOn le (EvVarOutlier.tradableDual rows)).take n).map (·.symbol) →
        ∃ x ∈ EvVarOutlier.tradableDual rows, x.symbol = s ∧ x.tradeMode ≠ some 3 := by
      intro le hmem
      rcases List.mem_map.mp hmem with ⟨x, hx, rfl⟩
      have hx' : x ∈ EvVarOutlier.tradableDual rows :=
        mem_insSortOn.mp (List.mem_of_mem_take hx)
      exact ⟨x, hx', rfl, htrad x hx'⟩
    rcases hs with hs | hs
    · exact hget _ hs
    · exact hget _ hs

theorem C8_close_only_exclusion_witness :
    List.count
        (⟨"CLOSED", "Foo", "IndA", CsvVal.num 1, CsvVal.num 1, some 3⟩ : Instrument)
        (EvVarOutlier.unactionableDual
          [⟨"CLOSED", "Foo", "IndA", CsvVal.num 1, CsvVal.num 1, some 3⟩,
           ⟨"OPEN", "Foo", "IndA", CsvVal.num 2, CsvVal.num 1, some 0⟩]) =
      List.count
        (⟨"CLOSED", "Foo", "IndA", CsvVal.num 1, CsvVal.num 1, some 3⟩ : Instrument)
        [⟨"CLOSED", "Foo", "IndA", CsvVal.num 1, CsvVal.num 1, some 3⟩,
         ⟨"OPEN", "Foo", "IndA", CsvVal.num 2, CsvVal.num 1, some 0⟩] :=
  ((C8_close_only_exclusion
      [⟨"CLOSED", "Foo", "IndA", CsvVal.num 1, CsvVal.num 1, some 3⟩,
       ⟨"OPEN", "Foo", "IndA", CsvVal.num 2, CsvVal.num 1, some 0⟩]).1
    ⟨"CLOSED", "Foo", "IndA", CsvVal.num 1, CsvVal.num 1, some 3⟩
    rfl (by decide) (by decide)).1

/-- C8 counterexample: a TradeMode-3 row whose `VaR_to_Ask_Ratio` is
missing is dropped by `dropna(subset=['MCap/EV (%)', 'VaR_to_Ask_Ratio'])`
before the close-only split of `find_dual_outliers`, so it appears zero
times — not once — in the unactionable listing. -/
theorem C8_close_only_exclusion_cex :
    (⟨"CLOSED", "Foo", "IndA", CsvVal.num 1, CsvVal.missing, some 3⟩ :
        Instrument).tradeMode = some 3 ∧
    EvVarOutlier.unactionableDual
        [⟨"CLOSED", "Foo", "IndA", CsvVal.num 1, CsvVal.missing, some 3⟩] = [] :=
  ⟨rfl, by decide⟩

/-- C9: the pipeline is deterministic — a pure function of the input row
sequence and the filename: two runs on identical inputs yield identical
top-N selections, tradable and close-only splits, group partitions, bounds
dictionaries, notes, VaR rankings and actionable-outlier tables. -/
theorem C9_determinism (rows1 rows2 : List Instrument) (fn1 fn2 : String)
    (hrows : rows1 = rows2) (hfn : fn1 = fn2) :
    selectTopN fn1 = selectTopN fn2 ∧
    EvVarOutlier.tradableDual rows1 = EvVarOutlier.tradableDual rows2 ∧
    EvVarOutlier.unactionableDual rows1 = EvVarOutlier.unactionableDual rows2 ∧
    pipelineGroups (EvVarOutlier.tradableDual rows1) =
      pipelineGroups (EvVarOutlier.tradableDual rows2) ∧
    boundsDictOf (EvVarOutlier.tradableDual rows1) mcapVal =
      boundsDictOf (EvVarOutlier.tradableDual rows2) mcapVal ∧
    boundsDictOf (EvVarOutlier.tradableDual rows1) varVal =
      boundsDictOf (EvVarOutlier.tradableDual rows2) varVal ∧
    EvVarOutlier.notesOf (EvVarOutlier.tradableDual rows1) =
      EvVarOutlier.notesOf (EvVarOutlier.tradableDual rows2) ∧
    EvVarOutlier.bottom_n_var_symbols (EvVarOutlier.tradableDual rows1)
        (selectTopN fn1) =
      EvVarOutlier.bottom_n_var_symbols (EvVarOutlier.tradableDual rows2)
        (selectTopN fn2) ∧
    EvVarOutlier.top_n_var_symbols (EvVarOutlier.tradableDual rows1)
        (selectTopN fn1) =
      EvVarOutlier.top_n_var_symbols (EvVarOutlier.tradableDual rows2)
        (selectTopN fn2) ∧
    EvVarOutlier.actionable_outliers (EvVarOutlier.tradableDual rows1)
        (selectTopN fn1) =
      EvVarOutlier.actionable_outliers (EvVarOutlier.tradableDual rows2)
        (selectTopN fn2) := by
  subst hrows
  subst hfn
  exact ⟨rfl, rfl, rfl, rfl, rfl, rfl, rfl, rfl, rfl, rfl⟩

theorem C9_determinism_witness :
    EvVarOutlier.actionable_outliers (EvVarOutlier.tradableDual c1df)
        (selectTopN "Stocks.csv") =
      EvVarOutlier.actionable_outliers (EvVarOutlier.tradableDual c1df)
        (selectTopN "Stocks.csv") :=
  (C9_determinism c1df c1df "Stocks.csv" "Stocks.csv" rfl rfl).2.2.2.2.2.2.2.2.2

theorem dedupBy_keys_mem {α κ : Type} [DecidableEq κ] (key : α → κ)
    (l : List α) (k : κ) :
    (∃ x ∈ dedupBy key l, key x = k) ↔ ∃ x ∈ l, key x = k := by
  constructor
  · rintro ⟨x, hx, hk⟩
    exact ⟨x, dedupBy_subset key l x hx, hk⟩
  · rintro ⟨x, hx, hk⟩
    have hsome : (List.find? (fun y => decide (key y = k)) l).isSome := by
      rw [List.find?_isSome]
      exact ⟨x, hx, by simp [hk]⟩
    rcases Option.isSome_iff_exists.mp hsome with ⟨x0, h0⟩
    have hx0k : key x0 = k := by
      have := List.find?_some h0
      simpa using this
    rw [← hx0k] at h0
    exact ⟨x0, (mem_dedupBy_iff key l x0).mpr h0, hx0k⟩

theorem mcapDescLe_trans (a b c : Instrument × String)
    (hab : EvVarOutlier.mcapDescLe a b = true)
    (hbc : EvVarOutlier.mcapDescLe b c = true) :
    EvVarOutlier.mcapDescLe a c = true := by
  simp only [EvVarOutlier.mcapDescLe, decide_eq_true_eq] at hab hbc ⊢
  exact le_trans hbc hab

theorem mcapDescLe_total (a b : Instrument × String) :
    EvVarOutlier.mcapDescLe a b = true ∨ EvVarOutlier.mcapDescLe b a = true := by
  simp only [EvVarOutlier.mcapDescLe, decide_eq_true_eq]
  exact le_total _ _

/-- C6: the actionable-outliers table is sorted descending by MCap/EV, has
no repeated symbol, consists of the first occurrence (in the order dual
outliers, bottom-N-tagged, top-N-tagged MCap/EV-only outliers) of each
symbol of the concatenation, and its symbols are exactly those of the dual
outliers together with those MCap/EV-only outliers whose symbol lies in the
bottom-N or top-N VaR ranking. -/
theorem C6_actionable_consolidation (df : List Instrument) (n : ℕ) :
    ((EvVarOutlier.actionable_outliers df n).Pairwise
      (fun a b => (mcapVal b.1).getD 0 ≤ (mcapVal a.1).getD 0)) ∧
    (((EvVarOutlier.actionable_outliers df n).map (fun p => p.1.symbol)).Nodup) ∧
    (∀ p, p ∈ EvVarOutlier.actionable_outliers df n ↔
      List.find? (fun q => decide (q.1.symbol = p.1.symbol))
        (EvVarOutlier.outlierConcat df n) = some p) ∧
    (∀ s, (∃ p ∈ EvVarOutlier.actionable_outliers df n, p.1.symbol = s) ↔
      ((∃ p ∈ EvVarOutlier.dual_outliers df, p.1.symbol = s) ∨
        (∃ p ∈ EvVarOutlier.mcap_outliers df, p.1.symbol = s ∧
          (s ∈ EvVarOutlier.bottom_n_var_symbols df n ∨
           s ∈ EvVarOutlier.top_n_var_symbols df n)))) := by
  refine ⟨?_, ?_, ?_, ?_⟩
  · have hpw := insSortOn_pairwise EvVarOutlier.mcapDescLe mcapDescLe_trans
      mcapDescLe_total
      (dedupBy (fun q => q.1.symbol) (EvVarOutlier.outlierConcat df n))
    refine List.Pairwise.imp ?_ hpw
    intro a b hab
    simpa [EvVarOutlier.mcapDescLe] using hab
  · have hperm := (insSortOn_perm EvVarOutlier.mcapDescLe
      (dedupBy (fun q => q.1.symbol) (EvVarOutlier.outlierConcat df n))).map
      (fun p => p.1.symbol)
    unfold EvVarOutlier.actionable_outliers
    rw [List.Perm.nodup_iff hperm]
    exact dedupBy_keys_nodup (fun q => q.1.symbol) (EvVarOutlier.outlierConcat df n)
  · intro p
    unfold EvVarOutlier.actionable_outliers
    rw [mem_insSortOn]
    exact mem_dedupBy_iff (fun q => q.1.symbol) (EvVarOutlier.outlierConcat df n) p
  · intro s
    have h1 : (∃ p ∈ EvVarOutlier.actionable_outliers df n, p.1.symbol = s) ↔
        ∃ p ∈ EvVarOutlier.outlierConcat df n, p.1.symbol = s := by
      constructor
      · rintro ⟨p, hp, hps⟩
        have hp' : p ∈ dedupBy (fun q : Instrument × String => q.1.symbol)
            (EvVarOutlier.outlierConcat df n) := mem_insSortOn.mp hp
        exact ⟨p, dedupBy_subset _ _ p hp', hps⟩
      · intro h
        rcases (dedupBy_keys_mem (fun q : Instrument × String => q.1.symbol)
            (EvVarOutlier.outlierConcat df n) s).mpr h with ⟨p, hp, hps⟩
        exact ⟨p, mem_insSortOn.mpr hp, hps⟩
    rw [h1]
    unfold EvVarOutlier.outlierConcat
    constructor
    · rintro ⟨p, hp, hps⟩
      rcases List.mem_append.mp hp with hp | hp
      · rcases List.mem_append.mp hp with hp | hp
        · exact Or.inl ⟨p, hp, hps⟩
        · rcases List.mem_map.mp hp with ⟨q, hq, rfl⟩
          rcases List.mem_filter.mp hq with ⟨hq1, hq2⟩
          have hq2' : q.1.symbol ∈ EvVarOutlier.bottom_n_var_symbols df n :=
            of_decide_eq_true hq2
          exact Or.inr ⟨q, hq1, hps, Or.inl (hps ▸ hq2')⟩
      · rcases List.mem_map.mp hp with ⟨q, hq, rfl⟩
        rcases List.mem_filter.mp hq with ⟨hq1, hq2⟩
        have hq2' : q.1.symbol ∈ EvVarOutlier.top_n_var_symbols df n :=
          of_decide_eq_true hq2
        exact Or.inr ⟨q, hq1, hps, Or.inr (hps ▸ hq2')⟩
    · rintro (⟨p, hp, hps⟩ | ⟨q, hq, hqs, hbt⟩)
      · exact ⟨p, List.mem_append.mpr (Or.inl (List.mem_append.mpr (Or.inl hp))), hps⟩
      · rcases hbt with hb | ht
        · refine ⟨(q.1, q.2 ++ " in Bottom " ++ toString n ++ " VaR"), ?_, hqs⟩
          refine List.mem_append.mpr (Or.inl (List.mem_append.mpr (Or.inr ?_)))
          exact List.mem_map.mpr
            ⟨q, List.mem_filter.mpr ⟨hq, by simp [hqs, hb]⟩, rfl⟩
        · refine ⟨(q.1, q.2 ++ " in Top " ++ toString n ++ " VaR"), ?_, hqs⟩
          refine List.mem_append.mpr (Or.inr ?_)
          exact List.mem_map.mpr
            ⟨q, List.mem_filter.mpr ⟨hq, by simp [hqs, ht]⟩, rfl⟩
